import Mathlib

/-!
Shallow embedding of the task-management backend (src/backend/server.ts with
the Zod schemas of src/backend/schema.ts).

Modelling conventions:
* The tasks table is a `List Task`; the PRIMARY KEY constraint on `task_id`
  is carried as the well-formedness predicate `wfIds`.
* Timestamps are `Nat` (milliseconds since the epoch).  The code stores ISO-8601
  UTC strings and compares them both as SQL text and through `new Date(..)`;
  both orders coincide with chronological order, hence with `Nat` order.
* `order_index` is an `Int` (SQL INTEGER column).
* SQL `col LIKE '%p%'` / `col ILIKE '%p%'` for a pattern `p` without wildcard
  metacharacters is substring containment (case-folded for ILIKE), and a NULL
  column never matches; modelled by `likeSub` / `ilikeSub`.
* JavaScript truthiness on optional string parameters (absent or `""` is falsy)
  is modelled by `jsOrStr` / `jsOrNull` / `strPresent`.
* A fallible route returns `Except String α` (the error code) paired with the
  database after the request.
-/

namespace TaskApp

structure Task where
  task_id : String
  user_id : String
  title : String
  description : Option String
  due_date : Option Nat
  priority : Option String
  category : Option String
  tags : Option String
  status : String
  order_index : Int
  share_expires_at : Option Nat
  created_at : Nat
  updated_at : Nat
deriving Repr, DecidableEq

/-- JS `x || d` on an optional string: `undefined` and `""` are falsy. -/
def jsOrStr (o : Option String) (d : String) : String :=
  match o with
  | none => d
  | some s => if s == "" then d else s

/-- JS `x || null` on an optional string: `""` collapses to null. -/
def jsOrNull (o : Option String) : Option String :=
  match o with
  | none => none
  | some s => if s == "" then none else some s

/-- JS truthiness of an optional string parameter. -/
def strPresent (o : Option String) : Bool :=
  match o with
  | none => false
  | some s => !(s == "")

/-- Containment of `pat` as a contiguous run of characters of `hay`. -/
def charsContain : List Char → List Char → Bool
  | [], pat => pat.isEmpty
  | c :: rest, pat => pat.isPrefixOf (c :: rest) || charsContain rest pat

/-- ASCII lower-casing of one character (what SQL lower() does on ASCII data). -/
def lowerChar (c : Char) : Char :=
  if c.toNat ≥ 65 && c.toNat ≤ 90 then Char.ofNat (c.toNat + 32) else c

/-- SQL `col LIKE '%pat%'` on a nullable column (NULL never matches). -/
def likeSub (field : Option String) (pat : String) : Bool :=
  match field with
  | none => false
  | some s => charsContain s.data pat.data

/-- SQL `col ILIKE '%pat%'` on a nullable column: case-insensitive containment. -/
def ilikeSub (field : Option String) (pat : String) : Bool :=
  match field with
  | none => false
  | some s => charsContain (s.data.map lowerChar) (pat.data.map lowerChar)

/-- Query options of GET /api/tasks.  `limitParam`/`offsetParam` hold the
`parseInt` result of the raw parameter, `none` meaning absent or NaN. -/
structure ListQuery where
  search_query : Option String := none
  filter_status : Option String := none
  filter_category : Option String := none
  filter_priority : Option String := none
  filter_tags : Option String := none
  sort_by : Option String := none
  sort_order : Option String := none
  limitParam : Option Int := none
  offsetParam : Option Int := none

/-- Effective page limit: `Math.min(Math.max(parseInt(limitParam) || 10, 1), 1000)`.
Note `parseInt(..) || 10` turns both NaN and 0 into the default 10. -/
def effLimit (p : Option Int) : Int :=
  let v : Int := match p with
    | none => 10
    | some n => if n == 0 then 10 else n
  min (max v 1) 1000

/-- Effective page offset: `Math.max(parseInt(offsetParam) || 0, 0)`. -/
def effOffset (p : Option Int) : Int :=
  let v : Int := match p with
    | none => 0
    | some n => n
  max v 0

def matchStatus (f : Option String) (t : Task) : Bool :=
  match f with
  | none => true
  | some s => if s == "" then true else t.status == s

def matchCategory (f : Option String) (t : Task) : Bool :=
  match f with
  | none => true
  | some s => if s == "" then true else t.category == some s

def matchPriority (f : Option String) (t : Task) : Bool :=
  match f with
  | none => true
  | some s => if s == "" then true else t.priority == some s

def matchTags (f : Option String) (t : Task) : Bool :=
  match f with
  | none => true
  | some s => if s == "" then true else likeSub t.tags s

def matchSearch (f : Option String) (t : Task) : Bool :=
  match f with
  | none => true
  | some s =>
    if s == "" then true
    else ilikeSub (some t.title) s || ilikeSub t.description s || ilikeSub t.tags s

/-- The WHERE clause of GET /api/tasks: owner scope AND each present filter,
the search clause being an OR across title/description/tags. -/
def taskMatches (uid : String) (q : ListQuery) (t : Task) : Bool :=
  t.user_id == uid
    && matchStatus q.filter_status t
    && matchCategory q.filter_category t
    && matchPriority q.filter_priority t
    && matchTags q.filter_tags t
    && matchSearch q.search_query t

def validSortFields : List String :=
  ["title", "due_date", "priority", "status", "order_index", "created_at", "updated_at"]

/-- Sort field actually used: the requested one when recognized, else order_index. -/
def effSortField (sb : Option String) : String :=
  let s := sb.getD "order_index"
  if validSortFields.contains s then s else "order_index"

/-- Sort direction actually used: asc/desc when recognized, else asc. -/
def effSortDir (so : Option String) : String :=
  let s := so.getD "asc"
  if s == "asc" || s == "desc" then s else "asc"

/-- Lexicographic order on character lists (SQL text ordering on ASCII data). -/
def charsLe : List Char → List Char → Bool
  | [], _ => true
  | _ :: _, [] => false
  | a :: as, b :: bs =>
    if a.toNat < b.toNat then true
    else if b.toNat < a.toNat then false
    else charsLe as bs

def strLeB (a b : String) : Bool := charsLe a.data b.data

def intLeB (a b : Int) : Bool := decide (a ≤ b)

/-- Ascending order on a nullable column (Postgres: NULLS LAST). -/
def optLeAsc (le : α → α → Bool) : Option α → Option α → Bool
  | none, none => true
  | none, some _ => false
  | some _, none => true
  | some a, some b => le a b

/-- Descending order on a nullable column (Postgres: NULLS FIRST). -/
def optLeDesc (le : α → α → Bool) : Option α → Option α → Bool
  | none, _ => true
  | some _, none => false
  | some a, some b => le b a

def fieldLe (field : String) (t1 t2 : Task) : Bool :=
  if field == "title" then strLeB t1.title t2.title
  else if field == "due_date" then optLeAsc Nat.ble t1.due_date t2.due_date
  else if field == "priority" then optLeAsc strLeB t1.priority t2.priority
  else if field == "status" then strLeB t1.status t2.status
  else if field == "created_at" then Nat.ble t1.created_at t2.created_at
  else if field == "updated_at" then Nat.ble t1.updated_at t2.updated_at
  else intLeB t1.order_index t2.order_index

def fieldLeDesc (field : String) (t1 t2 : Task) : Bool :=
  if field == "title" then strLeB t2.title t1.title
  else if field == "due_date" then optLeDesc Nat.ble t1.due_date t2.due_date
  else if field == "priority" then optLeDesc strLeB t1.priority t2.priority
  else if field == "status" then strLeB t2.status t1.status
  else if field == "created_at" then Nat.ble t2.created_at t1.created_at
  else if field == "updated_at" then Nat.ble t2.updated_at t1.updated_at
  else intLeB t2.order_index t1.order_index

def taskLe (field dir : String) (t1 t2 : Task) : Bool :=
  if dir == "desc" then fieldLeDesc field t1 t2 else fieldLe field t1 t2

structure ListResult where
  tasks : List Task
  total : Nat
deriving Repr, DecidableEq

/-- Insertion of one task into a list sorted by `le`. -/
def insertLe (le : Task → Task → Bool) (t : Task) : List Task → List Task
  | [] => [t]
  | u :: rest => if le t u then t :: u :: rest else u :: insertLe le t rest

/-- The ORDER BY clause: sorting by the comparator (the SQL engine promises no
particular tie-breaking, so any comparator sort models it). -/
def sortByLe (le : Task → Task → Bool) : List Task → List Task
  | [] => []
  | t :: rest => insertLe le t (sortByLe le rest)

/-- GET /api/tasks: filter to the owner scope plus the present filters, count the
matches as `total`, sort, then apply OFFSET and LIMIT. -/
def listTasks (db : List Task) (uid : String) (q : ListQuery) : ListResult :=
  let filtered := db.filter (taskMatches uid q)
  let sorted := sortByLe (taskLe (effSortField q.sort_by) (effSortDir q.sort_order)) filtered
  { tasks := (sorted.drop (effOffset q.offsetParam).toNat).take (effLimit q.limitParam).toNat,
    total := filtered.length }

/-- `SELECT * FROM tasks WHERE task_id = tid AND user_id = uid` (unique row if any,
by the PRIMARY KEY). -/
def findOwned (db : List Task) (uid tid : String) : Option Task :=
  db.find? (fun t => t.task_id == tid && t.user_id == uid)

/-- `SELECT COALESCE(MAX(order_index), -1) + 1 FROM tasks WHERE user_id = uid`. -/
def nextOrder (db : List Task) (uid : String) : Int :=
  (((db.filter (fun t => t.user_id == uid)).map Task.order_index).foldl max (-1)) + 1

def validStatus (s : String) : Bool :=
  s == "incomplete" || s == "completed" || s == "archived"

def validPriority (p : Option String) : Bool :=
  match p with
  | none => true
  | some s => s == "low" || s == "medium" || s == "high"

/-- Request body of POST /api/tasks (`none` = field absent from the JSON body). -/
structure CreateBody where
  title : Option String := none
  description : Option String := none
  due_date : Option Nat := none
  priority : Option String := none
  category : Option String := none
  tags : Option String := none
  status : Option String := none
  order_index : Option Int := none
  share_expires_at : Option Nat := none

/-- createTaskInputSchema of schema.ts applied to the normalized create data. -/
def createCheck (uid : String) (title : Option String) (desc pri cat tg : Option String)
    (st : String) (oi : Int) : Bool :=
  decide (1 ≤ uid.length)
    && (match title with | none => false | some s => decide (1 ≤ s.length) && decide (s.length ≤ 255))
    && (match desc with | none => true | some s => decide (s.length ≤ 1000))
    && validPriority pri
    && (match cat with | none => true | some s => decide (1 ≤ s.length) && decide (s.length ≤ 100))
    && (match tg with | none => true | some s => decide (s.length ≤ 500))
    && validStatus st
    && decide (0 ≤ oi)

/-- POST /api/tasks: normalize the body the way the route does, validate it with
createTaskInputSchema, take MAX(order_index)+1 when the requested order_index is
0 (the route treats an absent order_index as 0), and insert; a task_id collision
makes the INSERT fail on the PRIMARY KEY with no change. -/
def createTask (db : List Task) (uid : String) (b : CreateBody) (newId : String)
    (now : Nat) : Except String Task × List Task :=
  let desc := jsOrNull b.description
  let pri := jsOrNull b.priority
  let cat := jsOrNull b.category
  let tg := jsOrNull b.tags
  let st := jsOrStr b.status "incomplete"
  let oi := b.order_index.getD 0
  if !(createCheck uid b.title desc pri cat tg st oi) then (.error "VALIDATION_ERROR", db)
  else
    let finalIdx := if oi == 0 then nextOrder db uid else oi
    let t : Task :=
      { task_id := newId, user_id := uid, title := b.title.getD "",
        description := desc, due_date := b.due_date, priority := pri,
        category := cat, tags := tg, status := st, order_index := finalIdx,
        share_expires_at := b.share_expires_at, created_at := now, updated_at := now }
    if (db.map Task.task_id).contains newId then (.error "INTERNAL_SERVER_ERROR", db)
    else (.ok t, db ++ [t])

/-- Request body of PATCH /api/tasks/:task_id.  The outer `Option` is presence of
the property in the JSON body; inner `Option` is an SQL NULL value. -/
structure UpdateBody where
  title : Option String := none
  description : Option (Option String) := none
  due_date : Option (Option Nat) := none
  priority : Option (Option String) := none
  category : Option (Option String) := none
  tags : Option (Option String) := none
  status : Option String := none
  order_index : Option Int := none
  share_expires_at : Option (Option Nat) := none

def hasUpdateFields (b : UpdateBody) : Bool :=
  b.title.isSome || b.description.isSome || b.due_date.isSome || b.priority.isSome
    || b.category.isSome || b.tags.isSome || b.status.isSome || b.order_index.isSome
    || b.share_expires_at.isSome

/-- The SET clause of the PATCH update: store every present field verbatim and
refresh updated_at. -/
def applyUpdate (b : UpdateBody) (now : Nat) (t : Task) : Task :=
  { t with
    title := b.title.getD t.title,
    description := (match b.description with | none => t.description | some v => v),
    due_date := (match b.due_date with | none => t.due_date | some v => v),
    priority := (match b.priority with | none => t.priority | some v => v),
    category := (match b.category with | none => t.category | some v => v),
    tags := (match b.tags with | none => t.tags | some v => v),
    status := b.status.getD t.status,
    order_index := b.order_index.getD t.order_index,
    share_expires_at := (match b.share_expires_at with | none => t.share_expires_at | some v => v),
    updated_at := now }

/-- PATCH /api/tasks/:task_id: ownership check, then store the supplied fields
verbatim (no schema validation is applied on this route). -/
def updateTask (db : List Task) (uid tid : String) (b : UpdateBody) (now : Nat) :
    Except String Task × List Task :=
  match findOwned db uid tid with
  | none => (.error "TASK_NOT_FOUND", db)
  | some t =>
    if !(hasUpdateFields b) then (.error "NO_UPDATE_FIELDS", db)
    else (.ok (applyUpdate b now t),
      db.map (fun u => if u.task_id == tid && u.user_id == uid then applyUpdate b now u else u))

/-- An absent (optional) field passes; a present one must satisfy the check. -/
def optOk (v : Option α) (p : α → Bool) : Bool :=
  match v with
  | none => true
  | some a => p a

/-- A nullable field passes when NULL; a string value must satisfy the check. -/
def nullableOk (v : Option String) (p : String → Bool) : Bool :=
  match v with
  | none => true
  | some s => p s

/-- updateTaskInputSchema of schema.ts (declared but never applied by any route). -/
def updateTaskCheck (b : UpdateBody) : Bool :=
  optOk b.title (fun s => decide (1 ≤ s.length) && decide (s.length ≤ 255))
    && optOk b.description (fun v => nullableOk v (fun s => decide (s.length ≤ 1000)))
    && optOk b.priority validPriority
    && optOk b.category (fun v => nullableOk v (fun s => decide (1 ≤ s.length) && decide (s.length ≤ 100)))
    && optOk b.tags (fun v => nullableOk v (fun s => decide (s.length ≤ 500)))
    && optOk b.status validStatus
    && optOk b.order_index (fun i => decide (0 ≤ i))

/-- DELETE /api/tasks/:task_id: hard delete of the owned row, 404 when no row. -/
def deleteTask (db : List Task) (uid tid : String) : Except String Unit × List Task :=
  if db.any (fun t => t.task_id == tid && t.user_id == uid) then
    (.ok (), db.filter (fun t => !(t.task_id == tid && t.user_id == uid)))
  else (.error "TASK_NOT_FOUND", db)

/-- POST /api/tasks/:task_id/duplicate: read the owned original, compute
MAX(order_index)+1, insert the copy with the new id, "Copy of " title, status
incomplete, no share state, fresh timestamps; a task_id collision makes the
INSERT fail on the PRIMARY KEY with no change. -/
def duplicateTask (db : List Task) (uid tid newId : String) (now : Nat) :
    Except String Task × List Task :=
  match findOwned db uid tid with
  | none => (.error "TASK_NOT_FOUND", db)
  | some orig =>
    let t : Task :=
      { task_id := newId, user_id := uid, title := "Copy of " ++ orig.title,
        description := orig.description, due_date := orig.due_date,
        priority := orig.priority, category := orig.category, tags := orig.tags,
        status := "incomplete", order_index := nextOrder db uid,
        share_expires_at := none, created_at := now, updated_at := now }
    if (db.map Task.task_id).contains newId then (.error "INTERNAL_SERVER_ERROR", db)
    else (.ok t, db ++ [t])

/-- PATCH /api/tasks/:task_id/toggle-status: reject any target status other than
incomplete/completed, else set it on the owned row and refresh updated_at. -/
def toggleStatus (db : List Task) (uid tid : String) (st : Option String) (now : Nat) :
    Except String Task × List Task :=
  match st with
  | none => (.error "INVALID_STATUS", db)
  | some s =>
    if !(s == "incomplete" || s == "completed") then (.error "INVALID_STATUS", db)
    else
      match findOwned db uid tid with
      | none => (.error "TASK_NOT_FOUND", db)
      | some t =>
        (.ok { t with status := s, updated_at := now },
         db.map (fun u =>
           if u.task_id == tid && u.user_id == uid then { u with status := s, updated_at := now }
           else u))

def thirtyDaysMs : Nat := 30 * 24 * 60 * 60 * 1000

/-- POST /api/tasks/:task_id/share: when the stored expiry is null or not in the
future, set it to now + 30 days (refreshing updated_at); otherwise leave the row
untouched.  The reported expiry is the resulting one in both cases. -/
def shareTask (db : List Task) (uid tid : String) (now : Nat) :
    Except String (Option Nat) × List Task :=
  match findOwned db uid tid with
  | none => (.error "TASK_NOT_FOUND", db)
  | some t =>
    let active := match t.share_expires_at with
      | some e => Nat.blt now e
      | none => false
    if active then (.ok t.share_expires_at, db)
    else
      let ne := now + thirtyDaysMs
      (.ok (some ne),
       db.map (fun u =>
         if u.task_id == tid && u.user_id == uid then
           { u with share_expires_at := some ne, updated_at := now }
         else u))

/-- Rows owned by `uid` whose task_id is in `ids` (the ownership-validation
SELECT COUNT of the bulk and reorder routes counts these rows). -/
def ownedMatching (db : List Task) (uid : String) (ids : List String) : List Task :=
  db.filter (fun t => ids.contains t.task_id && t.user_id == uid)

/-- POST /api/tasks/bulk-complete: all-or-nothing ownership check by row count,
then set every referenced owned row to completed; updated_count is the UPDATE
row count. -/
def bulkComplete (db : List Task) (uid : String) (ids : List String) (now : Nat) :
    Except String Nat × List Task :=
  if ids.isEmpty then (.error "INVALID_TASK_IDS", db)
  else
    let validCount := (ownedMatching db uid ids).length
    if validCount != ids.length then (.error "INVALID_TASK_ACCESS", db)
    else
      (.ok validCount,
       db.map (fun t =>
         if ids.contains t.task_id && t.user_id == uid then
           { t with status := "completed", updated_at := now }
         else t))

/-- DELETE /api/tasks/bulk-delete: all-or-nothing ownership check by row count,
then delete every referenced owned row; deleted_count is the DELETE row count. -/
def bulkDelete (db : List Task) (uid : String) (ids : List String) :
    Except String Nat × List Task :=
  if ids.isEmpty then (.error "INVALID_TASK_IDS", db)
  else
    let validCount := (ownedMatching db uid ids).length
    if validCount != ids.length then (.error "INVALID_TASK_ACCESS", db)
    else (.ok validCount, db.filter (fun t => !(ids.contains t.task_id && t.user_id == uid)))

/-- PATCH /api/tasks/reorder: all-or-nothing ownership check by row count, then
set each listed task's order_index to its position in the list (when the check
passes the list has no duplicate ids, so the first index is the only one).  The
response is the listed rows sorted by the new order_index. -/
def reorderTasks (db : List Task) (uid : String) (order : List String) (now : Nat) :
    Except String (List Task) × List Task :=
  if order.isEmpty then (.error "INVALID_ORDER", db)
  else
    let validCount := (ownedMatching db uid order).length
    if validCount != order.length then (.error "INVALID_TASK_ACCESS", db)
    else
      let newDb := db.map (fun t =>
        if order.contains t.task_id && t.user_id == uid then
          { t with order_index := Int.ofNat (List.indexOf t.task_id order), updated_at := now }
        else t)
      (.ok (sortByLe (fun a b => intLeB a.order_index b.order_index)
              (newDb.filter (fun t => order.contains t.task_id && t.user_id == uid))),
       newDb)

/-- Reduced projection returned by GET /api/public/tasks/:task_id (its SELECT
names neither user_id nor order_index, nor the created_at/updated_at columns). -/
structure PublicTask where
  task_id : String
  title : String
  description : Option String
  due_date : Option Nat
  priority : Option String
  category : Option String
  tags : Option String
  status : String
  share_expires_at : Option Nat
deriving Repr, DecidableEq

def publicProjection (t : Task) : PublicTask :=
  { task_id := t.task_id, title := t.title, description := t.description,
    due_date := t.due_date, priority := t.priority, category := t.category,
    tags := t.tags, status := t.status, share_expires_at := t.share_expires_at }

/-- The WHERE clause `share_expires_at > now` of the public route: a NULL expiry
never matches, a non-null one only when it is strictly in the future. -/
def shareVisible (now : Nat) (t : Task) : Bool :=
  match t.share_expires_at with
  | some e => Nat.blt now e
  | none => false

/-- GET /api/public/tasks/:task_id (no authentication): the same 404 error comes
back for a missing row, a never-shared row and an expired share. -/
def publicFetch (db : List Task) (tid : String) (now : Nat) : Except String PublicTask :=
  match db.find? (fun t => t.task_id == tid && shareVisible now t) with
  | some t => .ok (publicProjection t)
  | none => .error "SHARED_TASK_NOT_FOUND"

/-- One authenticated task mutation, as dispatched by the router. -/
inductive Op where
  | createOp (b : CreateBody) (newId : String)
  | updateOp (tid : String) (b : UpdateBody)
  | removeOp (tid : String)
  | duplicateOp (tid : String) (newId : String)
  | reorderOp (order : List String)
  | toggleOp (tid : String) (st : Option String)
  | bulkCompleteOp (ids : List String)
  | bulkDeleteOp (ids : List String)
  | shareOp (tid : String)

/-- Database after one authenticated mutation by user `uid` at time `now`. -/
def step (db : List Task) (uid : String) (now : Nat) : Op → List Task
  | .createOp b newId => (createTask db uid b newId now).2
  | .updateOp tid b => (updateTask db uid tid b now).2
  | .removeOp tid => (deleteTask db uid tid).2
  | .duplicateOp tid newId => (duplicateTask db uid tid newId now).2
  | .reorderOp order => (reorderTasks db uid order now).2
  | .toggleOp tid st => (toggleStatus db uid tid st now).2
  | .bulkCompleteOp ids => (bulkComplete db uid ids now).2
  | .bulkDeleteOp ids => (bulkDelete db uid ids).2
  | .shareOp tid => (shareTask db uid tid now).2

/-- PRIMARY KEY constraint of the tasks table. -/
def wfIds (db : List Task) : Prop := (db.map Task.task_id).Nodup

instance (db : List Task) : Decidable (wfIds db) := by
  unfold wfIds
  infer_instance

/-- order_index values are pairwise distinct within each owner's task set. -/
def ownerIdxUniq (db : List Task) : Prop :=
  List.Pairwise (fun a b => a.user_id = b.user_id → a.order_index ≠ b.order_index) db

instance (db : List Task) : Decidable (ownerIdxUniq db) := by
  unfold ownerIdxUniq
  infer_instance

/-- The ids of the tasks owned by `uid`, in table order. -/
def ownedIds (db : List Task) (uid : String) : List String :=
  (db.filter (fun t => t.user_id == uid)).map Task.task_id

/-- Operations that do not store a caller-chosen order_index: create relying on
the automatic append index, update not touching order_index, reorder of a full
permutation of the owner's ids; the remaining operations never write
order_index at all. -/
def SafeOp (db : List Task) (uid : String) : Op → Prop
  | .createOp b _ => b.order_index.getD 0 = 0
  | .updateOp _ b => b.order_index = none
  | .reorderOp order => order.Perm (ownedIds db uid)
  | _ => True

/-- Fixture: a minimal task row for concrete witnesses. -/
def mkTask (id uid : String) (oi : Int) : Task :=
  { task_id := id, user_id := uid, title := "t" ++ id, description := none,
    due_date := none, priority := none, category := none, tags := none,
    status := "incomplete", order_index := oi, share_expires_at := none,
    created_at := 0, updated_at := 0 }

/-- Fixture: two tasks of owner u with order indices 0 and 1. -/
def dbPair : List Task := [mkTask "A" "u" 0, mkTask "B" "u" 1]

/-- Fixture: three tasks of owner u plus one task of another owner. -/
def dbMixed : List Task :=
  [mkTask "A" "u" 0, mkTask "B" "u" 1, mkTask "C" "u" 2, mkTask "D" "v" 0]

/-- Fixture: a task of owner u carrying every optional column. -/
def taskFull : Task :=
  { task_id := "F", user_id := "u", title := "Quarterly Report",
    description := some "finalize the charts", due_date := some 1000,
    priority := some "high", category := some "Work", tags := some "report,urgent",
    status := "incomplete", order_index := 0, share_expires_at := none,
    created_at := 0, updated_at := 0 }

/-- Fixture: a single-task table of owner u. -/
def dbOne : List Task := [mkTask "A" "u" 0]

/-- Fixture: a 256-character title, one over the schema's 255 limit. -/
def longTitle : String := String.mk (List.replicate 256 'a')

/-- Fixture: a 1001-character description, one over the schema's 1000 limit. -/
def longDesc : String := String.mk (List.replicate 1001 'b')

/-- Fixture: a PATCH body whose values violate the (unapplied) update schema. -/
def updateBodyRogue : UpdateBody :=
  { title := some longTitle,
    description := some (some longDesc),
    priority := some (some "urgent"),
    status := some "blocked" }

/-- Fixture: a fully-filtered list query with an unrecognized sort field. -/
def qWitness : ListQuery :=
  { search_query := some "report", filter_status := some "incomplete",
    filter_category := some "Work", filter_priority := some "high",
    filter_tags := some "urg", sort_by := some "bogus", sort_order := some "asc" }

theorem insertLe_perm (le : Task → Task → Bool) (t : Task) (l : List Task) :
    (insertLe le t l).Perm (t :: l) := by
  induction l with
  | nil => simp [insertLe]
  | cons u rest ih =>
    simp only [insertLe]
    by_cases h : le t u
    · simp [h]
    · simp only [h, if_neg]
      exact (ih.cons u).trans (List.Perm.swap t u rest)

theorem sortByLe_perm (le : Task → Task → Bool) (l : List Task) :
    (sortByLe le l).Perm l := by
  induction l with
  | nil => simp [sortByLe]
  | cons t rest ih => exact (insertLe_perm le t _).trans (ih.cons t)

theorem mem_sortByLe {le : Task → Task → Bool} {l : List Task} {t : Task} :
    t ∈ sortByLe le l ↔ t ∈ l :=
  (sortByLe_perm le l).mem_iff

theorem length_sortByLe (le : Task → Task → Bool) (l : List Task) :
    (sortByLe le l).length = l.length :=
  (sortByLe_perm le l).length_eq

theorem foldl_max_init (l : List Int) (a : Int) : a ≤ l.foldl max a := by
  induction l generalizing a with
  | nil => simp
  | cons x xs ih => exact le_trans (le_max_left a x) (ih (max a x))

theorem le_foldl_max (l : List Int) (a : Int) : ∀ x ∈ l, x ≤ l.foldl max a := by
  induction l generalizing a with
  | nil => intro x hx; cases hx
  | cons y ys ih =>
    intro x hx
    rcases List.mem_cons.mp hx with h | h
    · subst h
      exact le_trans (le_max_right a x) (foldl_max_init ys (max a x))
    · exact ih (max a y) x h

theorem nextOrder_gt (db : List Task) (uid : String) :
    ∀ t ∈ db, t.user_id = uid → t.order_index < nextOrder db uid := by
  intro t ht hu
  have hmem : t.order_index ∈ (db.filter (fun t => t.user_id == uid)).map Task.order_index :=
    List.mem_map_of_mem _ (List.mem_filter.mpr ⟨ht, by simp [hu]⟩)
  have hle := le_foldl_max _ (-1) _ hmem
  unfold nextOrder
  omega

theorem mem_ownedMatching {db : List Task} {uid : String} {ids : List String} {t : Task} :
    t ∈ ownedMatching db uid ids ↔ t ∈ db ∧ t.task_id ∈ ids ∧ t.user_id = uid := by
  simp [ownedMatching, List.mem_filter, and_assoc]

theorem ownedMatching_map_nodup (db : List Task) (uid : String) (ids : List String)
    (hwf : wfIds db) : ((ownedMatching db uid ids).map Task.task_id).Nodup :=
  List.Nodup.sublist (List.Sublist.map _ (List.filter_sublist db)) hwf

theorem ownedIds_nodup (db : List Task) (uid : String) (hwf : wfIds db) :
    (ownedIds db uid).Nodup :=
  List.Nodup.sublist (List.Sublist.map _ (List.filter_sublist db)) hwf

theorem ownedMatching_length_lt (db : List Task) (uid : String) (ids : List String)
    (hwf : wfIds db) (id0 : String) (hid : id0 ∈ ids)
    (hfor : ∀ t ∈ db, ¬(t.task_id = id0 ∧ t.user_id = uid)) :
    (ownedMatching db uid ids).length < ids.length := by
  classical
  have hnd : ((ownedMatching db uid ids).map Task.task_id).Nodup :=
    ownedMatching_map_nodup db uid ids hwf
  have hsubset : ((ownedMatching db uid ids).map Task.task_id).toFinset ⊆
      ids.toFinset.erase id0 := by
    intro x hx
    rw [List.mem_toFinset] at hx
    obtain ⟨t, htm, rfl⟩ := List.mem_map.mp hx
    obtain ⟨htdb, htid, htu⟩ := mem_ownedMatching.mp htm
    refine Finset.mem_erase.mpr ⟨?_, List.mem_toFinset.mpr htid⟩
    intro heq
    exact hfor t htdb ⟨heq, htu⟩
  have h1 : (ownedMatching db uid ids).length =
      ((ownedMatching db uid ids).map Task.task_id).toFinset.card := by
    rw [List.toFinset_card_of_nodup hnd, List.length_map]
  have h2 : (ids.toFinset.erase id0).card = ids.toFinset.card - 1 :=
    Finset.card_erase_of_mem (List.mem_toFinset.mpr hid)
  have h3 : ids.toFinset.card ≤ ids.length := List.toFinset_card_le ids
  have h4 : 1 ≤ ids.toFinset.card :=
    Finset.card_pos.mpr ⟨id0, List.mem_toFinset.mpr hid⟩
  have h5 := Finset.card_le_card hsubset
  omega

theorem ownedMatching_length_eq (db : List Task) (uid : String) (ids : List String)
    (hwf : wfIds db) (hnd : ids.Nodup)
    (hall : ∀ id ∈ ids, ∃ t ∈ db, t.task_id = id ∧ t.user_id = uid) :
    (ownedMatching db uid ids).length = ids.length := by
  classical
  have hndm : ((ownedMatching db uid ids).map Task.task_id).Nodup :=
    ownedMatching_map_nodup db uid ids hwf
  have hset : ((ownedMatching db uid ids).map Task.task_id).toFinset = ids.toFinset := by
    ext x
    simp only [List.mem_toFinset, List.mem_map]
    constructor
    · rintro ⟨t, htm, rfl⟩
      exact (mem_ownedMatching.mp htm).2.1
    · intro hx
      obtain ⟨t, htdb, htid, htu⟩ := hall x hx
      exact ⟨t, mem_ownedMatching.mpr ⟨htdb, htid ▸ hx, htu⟩, htid⟩
  have h1 : (ownedMatching db uid ids).length =
      ((ownedMatching db uid ids).map Task.task_id).toFinset.card := by
    rw [List.toFinset_card_of_nodup hndm, List.length_map]
  rw [h1, hset, List.toFinset_card_of_nodup hnd]

theorem ownedMatching_of_perm (db : List Task) (uid : String) (order : List String)
    (hperm : order.Perm (ownedIds db uid)) :
    ownedMatching db uid order = db.filter (fun t => t.user_id == uid) := by
  apply List.filter_congr
  intro t ht
  by_cases hu : t.user_id = uid
  · have h1 : t.task_id ∈ ownedIds db uid :=
      List.mem_map_of_mem _ (List.mem_filter.mpr ⟨ht, by simp [hu]⟩)
    have h2 : t.task_id ∈ order := hperm.mem_iff.mpr h1
    simp [hu, h2]
  · simp [hu]

theorem ownedMatching_length_of_perm (db : List Task) (uid : String) (order : List String)
    (hperm : order.Perm (ownedIds db uid)) :
    (ownedMatching db uid order).length = order.length := by
  rw [ownedMatching_of_perm db uid order hperm]
  have := hperm.length_eq
  simpa [ownedIds] using this.symm

/-- C4: sharing an owned task sets share_expires_at to now + 30 days when it is
currently null or not strictly in the future, and leaves it completely unchanged
when it is already strictly in the future; the response reports the resulting
expiry in both cases. -/
theorem c4_share_expiry (db : List Task) (uid tid : String) (now : Nat) (t : Task)
    (hfind : findOwned db uid tid = some t) :
    ((t.share_expires_at = none ∨ (∃ e, t.share_expires_at = some e ∧ e ≤ now)) →
      (shareTask db uid tid now).1 = .ok (some (now + thirtyDaysMs))
      ∧ { t with share_expires_at := some (now + thirtyDaysMs), updated_at := now }
          ∈ (shareTask db uid tid now).2
      ∧ (∀ u ∈ db, u.task_id ≠ tid → u ∈ (shareTask db uid tid now).2))
    ∧ (∀ e, t.share_expires_at = some e → now < e →
        shareTask db uid tid now = (.ok (some e), db)) := by
  have htdb : t ∈ db := List.mem_of_find?_eq_some hfind
  have htp := List.find?_some hfind
  rw [Bool.and_eq_true, beq_iff_eq, beq_iff_eq] at htp
  constructor
  · intro hcase
    have hred : shareTask db uid tid now =
        (.ok (some (now + thirtyDaysMs)),
         db.map (fun u =>
           if u.task_id == tid && u.user_id == uid then
             { u with share_expires_at := some (now + thirtyDaysMs), updated_at := now }
           else u)) := by
      rcases hcase with h | ⟨e, he, hle⟩
      · simp [shareTask, hfind, h]
      · have hblt : Nat.blt now e = false := by
          cases hb : Nat.blt now e
          · rfl
          · exact absurd (by simpa [Nat.blt_eq] using hb) (not_lt.mpr hle)
        simp [shareTask, hfind, he, hblt]
    refine ⟨by rw [hred], ?_, ?_⟩
    · rw [hred]
      exact List.mem_map.mpr ⟨t, htdb, by simp [htp.1, htp.2]⟩
    · intro u hu hne
      rw [hred]
      exact List.mem_map.mpr ⟨u, hu, by simp [hne]⟩
  · intro e he hlt
    have hblt : Nat.blt now e = true := by simpa [Nat.blt_eq] using hlt
    simp [shareTask, hfind, he, hblt]

/-- C4 witness: a concrete owned task with an expired share gets now + 30 days. -/
theorem c4_share_expiry_witness :
    (shareTask [{ mkTask "A" "u" 0 with share_expires_at := some 50 }] "u" "A" 100).1 =
      .ok (some (100 + thirtyDaysMs))
    ∧ { { mkTask "A" "u" 0 with share_expires_at := some 50 } with
          share_expires_at := some (100 + thirtyDaysMs), updated_at := 100 }
        ∈ (shareTask [{ mkTask "A" "u" 0 with share_expires_at := some 50 }] "u" "A" 100).2 := by
  have h := c4_share_expiry [{ mkTask "A" "u" 0 with share_expires_at := some 50 }]
    "u" "A" 100 { mkTask "A" "u" 0 with share_expires_at := some 50 } rfl
  have h2 := h.1 (Or.inr ⟨50, rfl, by omega⟩)
  exact ⟨h2.1, h2.2.1⟩

/-- C5: the unauthenticated public fetch returns the reduced projection exactly
when a task with that id exists whose share_expires_at is non-null and strictly
in the future; in every other case it returns the same not-found response. -/
theorem c5_public_visibility (db : List Task) (tid : String) (now : Nat) (hwf : wfIds db) :
    (∀ t ∈ db, t.task_id = tid → ∀ e, t.share_expires_at = some e → now < e →
      publicFetch db tid now = .ok (publicProjection t))
    ∧ (∀ pt, publicFetch db tid now = .ok pt →
        ∃ t ∈ db, t.task_id = tid ∧ (∃ e, t.share_expires_at = some e ∧ now < e)
          ∧ pt = publicProjection t)
    ∧ ((∀ t ∈ db, t.task_id = tid → shareVisible now t = false) →
        publicFetch db tid now = .error "SHARED_TASK_NOT_FOUND")
    ∧ (∀ t : Task, shareVisible now t = true ↔
        ∃ e, t.share_expires_at = some e ∧ now < e) := by
  refine ⟨?_, ?_, ?_, ?_⟩
  · intro t htdb htid e he hlt
    have hvis : shareVisible now t = true := by
      simp [shareVisible, he, Nat.blt_eq, hlt]
    cases hfind : db.find? (fun t => t.task_id == tid && shareVisible now t) with
    | none =>
      exact absurd (by simp [htid, hvis]) (List.find?_eq_none.mp hfind t htdb)
    | some u =>
      have hup := List.find?_some hfind
      rw [Bool.and_eq_true, beq_iff_eq] at hup
      have hudb : u ∈ db := List.mem_of_find?_eq_some hfind
      have : u = t :=
        List.inj_on_of_nodup_map hwf hudb htdb (by rw [hup.1, htid])
      subst this
      simp [publicFetch, hfind]
  · intro pt hpt
    cases hfind : db.find? (fun t => t.task_id == tid && shareVisible now t) with
    | none => simp [publicFetch, hfind] at hpt
    | some u =>
      have hup := List.find?_some hfind
      rw [Bool.and_eq_true, beq_iff_eq] at hup
      have hudb : u ∈ db := List.mem_of_find?_eq_some hfind
      have hvis := hup.2
      simp only [shareVisible] at hvis
      have hex : ∃ e, u.share_expires_at = some e ∧ now < e := by
        cases he : u.share_expires_at with
        | none => rw [he] at hvis; exact absurd hvis (by simp)
        | some e =>
          rw [he] at hvis
          exact ⟨e, rfl, by simpa [Nat.blt_eq] using hvis⟩
      simp only [publicFetch, hfind, Except.ok.injEq] at hpt
      exact ⟨u, hudb, hup.1, hex, hpt.symm⟩
  · intro hall
    have hfind : db.find? (fun t => t.task_id == tid && shareVisible now t) = none := by
      rw [List.find?_eq_none]
      intro x hx
      by_cases hxid : x.task_id = tid
      · simp [hxid, hall x hx hxid]
      · simp [hxid]
    simp [publicFetch, hfind]
  · intro t
    cases he : t.share_expires_at with
    | none => simp [shareVisible, he]
    | some e => simp [shareVisible, he, Nat.blt_eq]

/-- C5 witness: a shared task with future expiry is publicly visible, an expired
one and a missing id both give the same not-found response. -/
theorem c5_public_visibility_witness :
    publicFetch [{ mkTask "A" "u" 0 with share_expires_at := some 200 }] "A" 100 =
      .ok (publicProjection { mkTask "A" "u" 0 with share_expires_at := some 200 })
    ∧ publicFetch [{ mkTask "A" "u" 0 with share_expires_at := some 100 }] "A" 100 =
      .error "SHARED_TASK_NOT_FOUND"
    ∧ publicFetch [{ mkTask "A" "u" 0 with share_expires_at := some 100 }] "B" 100 =
      .error "SHARED_TASK_NOT_FOUND" := by
  have h1 := c5_public_visibility [{ mkTask "A" "u" 0 with share_expires_at := some 200 }]
    "A" 100 (by decide)
  have h2 := c5_public_visibility [{ mkTask "A" "u" 0 with share_expires_at := some 100 }]
    "A" 100 (by decide)
  have h3 := c5_public_visibility [{ mkTask "A" "u" 0 with share_expires_at := some 100 }]
    "B" 100 (by decide)
  refine ⟨?_, ?_, ?_⟩
  · exact h1.1 _ (by simp) rfl 200 rfl (by omega)
  · exact h2.2.2.1 (by decide)
  · exact h3.2.2.1 (by decide)

/-- C6: duplicating an owned task creates a new task with the fresh id, title
"Copy of " + the original's, identical description/due_date/priority/category/
tags, status incomplete, no share state, and an order_index strictly greater
than every task the owner had; every pre-existing row (the original included)
is carried over unchanged. -/
theorem c6_duplicate_copy (db : List Task) (uid tid newId : String) (now : Nat)
    (orig : Task) (hfind : findOwned db uid tid = some orig)
    (hfresh : (db.map Task.task_id).contains newId = false) :
    ∃ nt, duplicateTask db uid tid newId now = (.ok nt, db ++ [nt])
      ∧ nt.task_id = newId
      ∧ nt.title = "Copy of " ++ orig.title
      ∧ nt.description = orig.description
      ∧ nt.due_date = orig.due_date
      ∧ nt.priority = orig.priority
      ∧ nt.category = orig.category
      ∧ nt.tags = orig.tags
      ∧ nt.status = "incomplete"
      ∧ nt.share_expires_at = none
      ∧ (∀ t ∈ db, t.user_id = uid → t.order_index < nt.order_index)
      ∧ (∀ t ∈ db, newId ≠ t.task_id) := by
  refine ⟨{ task_id := newId, user_id := uid, title := "Copy of " ++ orig.title,
            description := orig.description, due_date := orig.due_date,
            priority := orig.priority, category := orig.category, tags := orig.tags,
            status := "incomplete", order_index := nextOrder db uid,
            share_expires_at := none, created_at := now, updated_at := now },
    ?_, rfl, rfl, rfl, rfl, rfl, rfl, rfl, rfl, rfl, ?_, ?_⟩
  · simp [duplicateTask, hfind, hfresh]
    intro x hx hxeq
    have hmem : newId ∈ db.map Task.task_id := hxeq ▸ List.mem_map_of_mem _ hx
    have hc : (db.map Task.task_id).contains newId = true := List.elem_iff.mpr hmem
    rw [hfresh] at hc
    cases hc
  · intro t ht hu
    exact nextOrder_gt db uid t ht hu
  · intro t ht heq
    have hmem : newId ∈ db.map Task.task_id := heq ▸ List.mem_map_of_mem _ ht
    have h2 : (db.map Task.task_id).contains newId = true := List.elem_iff.mpr hmem
    rw [hfresh] at h2
    cases h2

/-- C6 witness: duplicating task A of the two-task fixture appends the copy. -/
theorem c6_duplicate_copy_witness :
    ∃ nt, duplicateTask dbPair "u" "A" "N" 9 = (.ok nt, dbPair ++ [nt])
      ∧ nt.title = "Copy of tA" ∧ nt.status = "incomplete"
      ∧ nt.share_expires_at = none
      ∧ (∀ t ∈ dbPair, t.user_id = "u" → t.order_index < nt.order_index) := by
  obtain ⟨nt, h1, _, h3, _, _, _, _, _, h9, h10, h11, _⟩ :=
    c6_duplicate_copy dbPair "u" "A" "N" 9 (mkTask "A" "u" 0) rfl (by decide)
  refine ⟨nt, h1, ?_, h9, h10, h11⟩
  rw [h3]
  decide

/-- C7: toggle-status rejects any target other than incomplete/completed with a
400 validation error and no change; with a valid target and an owned task it
stores exactly that status, refreshes updated_at, and leaves other rows as they
were. -/
theorem c7_toggle_validation (db : List Task) (uid tid : String) (st : Option String)
    (now : Nat) :
    ((∀ s, st = some s → s ≠ "incomplete" ∧ s ≠ "completed") →
      toggleStatus db uid tid st now = (.error "INVALID_STATUS", db))
    ∧ (∀ s t, s = "incomplete" ∨ s = "completed" → findOwned db uid tid = some t →
        (toggleStatus db uid tid (some s) now).1 = .ok { t with status := s, updated_at := now }
        ∧ { t with status := s, updated_at := now } ∈ (toggleStatus db uid tid (some s) now).2
        ∧ (∀ u ∈ db, u.task_id ≠ tid → u ∈ (toggleStatus db uid tid (some s) now).2)) := by
  constructor
  · intro hbad
    cases st with
    | none => simp [toggleStatus]
    | some s =>
      obtain ⟨h1, h2⟩ := hbad s rfl
      have hb : (s == "incomplete" || s == "completed") = false := by simp [h1, h2]
      simp [toggleStatus, hb]
  · intro s t hs hfind
    have hok : (s == "incomplete" || s == "completed") = true := by
      rcases hs with h | h <;> simp [h]
    have htdb : t ∈ db := List.mem_of_find?_eq_some hfind
    have htp := List.find?_some hfind
    rw [Bool.and_eq_true, beq_iff_eq, beq_iff_eq] at htp
    refine ⟨?_, ?_, ?_⟩
    · simp [toggleStatus, hok, hfind]
    · simp only [toggleStatus, hok, Bool.not_true, Bool.false_eq_true, if_false, hfind]
      exact List.mem_map.mpr ⟨t, htdb, by simp [htp.1, htp.2]⟩
    · intro u hu hne
      simp only [toggleStatus, hok, Bool.not_true, Bool.false_eq_true, if_false, hfind]
      exact List.mem_map.mpr ⟨u, hu, by simp [hne]⟩

/-- C7 witness: an invalid target is rejected with the table unchanged, and a
valid one lands on the task. -/
theorem c7_toggle_validation_witness :
    toggleStatus dbPair "u" "A" (some "archived") 3 = (.error "INVALID_STATUS", dbPair)
    ∧ (toggleStatus dbPair "u" "A" (some "completed") 3).1 =
        .ok { mkTask "A" "u" 0 with status := "completed", updated_at := 3 } := by
  constructor
  · exact (c7_toggle_validation dbPair "u" "A" (some "archived") 3).1
      (by intro s hs; injection hs with h; subst h; exact ⟨by decide, by decide⟩)
  · exact ((c7_toggle_validation dbPair "u" "A" (some "completed") 3).2
      "completed" (mkTask "A" "u" 0) (Or.inr rfl) rfl).1

/-- C10: the partial-update route stores supplied values for recognized fields
without validating them against the task schema: a status outside the enum, a
300-character title, a 1200-character description and a priority outside the
enum are all stored verbatim on an owned task, although updateTaskInputSchema
(which rejects this very body) exists. -/
theorem c10_update_unvalidated :
    (updateTask dbOne "u" "A" updateBodyRogue 5).1 =
      .ok (applyUpdate updateBodyRogue 5 (mkTask "A" "u" 0))
    ∧ (updateTask dbOne "u" "A" updateBodyRogue 5).2 =
        [applyUpdate updateBodyRogue 5 (mkTask "A" "u" 0)]
    ∧ (applyUpdate updateBodyRogue 5 (mkTask "A" "u" 0)).status = "blocked"
    ∧ validStatus "blocked" = false
    ∧ (applyUpdate updateBodyRogue 5 (mkTask "A" "u" 0)).title = longTitle
    ∧ longTitle.length = 256
    ∧ (applyUpdate updateBodyRogue 5 (mkTask "A" "u" 0)).description = some longDesc
    ∧ longDesc.length = 1001
    ∧ (applyUpdate updateBodyRogue 5 (mkTask "A" "u" 0)).priority = some "urgent"
    ∧ validPriority (some "urgent") = false
    ∧ updateTaskCheck updateBodyRogue = false := by
  refine ⟨rfl, rfl, rfl, by decide, rfl, ?_, rfl, ?_, rfl, by decide, ?_⟩
  · unfold longTitle
    rw [String.length_mk, List.length_replicate]
  · unfold longDesc
    rw [String.length_mk, List.length_replicate]
  · have hp : optOk updateBodyRogue.priority validPriority = false := by decide
    simp only [updateTaskCheck, hp, Bool.and_false, Bool.false_and]

/-- C9 counterexample: a requested limit of 0 is not clamped into [1,1000] (which
would give effective limit 1) but replaced by the default 10, so two tasks come
back where the claim allows at most one. -/
theorem c9_limit_counterexample :
    (listTasks dbPair "u" { limitParam := some 0 }).tasks.length = 2
    ∧ (min (max (0 : Int) 1) 1000).toNat = 1 := by
  exact ⟨by decide, by decide⟩

/-- C9 (amended): pagination parameters are never rejected: the number of tasks
returned is at most the effective limit; the effective limit equals the
requested limit clamped into [1,1000] for every nonzero parsed value, while an
absent, unparsable or zero value falls back to the default 10 before clamping;
the effective offset is the requested offset floored at 0. -/
theorem c9_pagination_clamp (db : List Task) (uid : String) (q : ListQuery)
    (n : Int) (hn : n ≠ 0) :
    (listTasks db uid q).tasks.length ≤ (effLimit q.limitParam).toNat
    ∧ effLimit (some n) = min (max n 1) 1000
    ∧ effLimit none = 10 ∧ effLimit (some 0) = 10
    ∧ (∀ m : Int, effOffset (some m) = max m 0)
    ∧ effOffset none = 0 := by
  refine ⟨?_, ?_, rfl, rfl, fun m => rfl, rfl⟩
  · exact List.length_take_le _ _
  · simp [effLimit, hn]

/-- C9 witness: with a parsed limit of 1 the effective limit is 1 and at most
one task comes back. -/
theorem c9_pagination_clamp_witness :
    (listTasks dbPair "u" { limitParam := some 1 }).tasks.length ≤
      (effLimit (some 1)).toNat
    ∧ effLimit (some 1) = 1 := by
  have h := c9_pagination_clamp dbPair "u" { limitParam := some 1 } 1 (by decide)
  exact ⟨h.1, by rw [h.2.1]; omega⟩

/-- C8 counterexample: on a well-formed two-task table with distinct indices, a
reorder listing only task B passes the row-count check and sets B's order_index
to 0, colliding with A's; per-owner order_index uniqueness is not preserved by
every operation. -/
theorem c8_counterexample :
    wfIds dbPair ∧ ownerIdxUniq dbPair
    ∧ ¬ ownerIdxUniq (step dbPair "u" 9 (.reorderOp ["B"])) := by
  exact ⟨by decide, by decide, by decide⟩

/-- C3 counterexample: with a duplicated owned id the batch ["A", "A"] satisfies
"every supplied id matches a task owned by the caller", yet both bulk routes
reject the whole batch and complete/delete nothing, instead of updating and
reporting the batch size. -/
theorem c3_bulk_counterexample :
    (∀ id ∈ ["A", "A"], ∃ t ∈ dbPair, t.task_id = id ∧ t.user_id = "u")
    ∧ (bulkComplete dbPair "u" ["A", "A"] 5).2 = dbPair
    ∧ (∀ t ∈ (bulkComplete dbPair "u" ["A", "A"] 5).2, t.status ≠ "completed")
    ∧ (bulkDelete dbPair "u" ["A", "A"]).2 = dbPair
    ∧ (bulkComplete dbPair "u" ["A", "A"] 5).1 = .error "INVALID_TASK_ACCESS"
    ∧ (bulkDelete dbPair "u" ["A", "A"]).1 = .error "INVALID_TASK_ACCESS" := by
  exact ⟨by decide, by decide, by decide, by decide, rfl, rfl⟩

/-- C2: every task returned by the list route belongs to the requesting owner
and satisfies each supplied filter (exact match for status/category/priority,
substring match for the tag filter, and search text matching title, description
or tags), the filters being AND-combined with the search an OR across the three
columns; the returned tasks never exceed the total; and an unrecognized sort
field silently falls back to order_index. -/
theorem c2_list_filters (db : List Task) (uid : String) (q : ListQuery) (t : Task)
    (ht : t ∈ (listTasks db uid q).tasks) :
    t.user_id = uid
    ∧ (∀ s, q.filter_status = some s → s ≠ "" → t.status = s)
    ∧ (∀ s, q.filter_category = some s → s ≠ "" → t.category = some s)
    ∧ (∀ s, q.filter_priority = some s → s ≠ "" → t.priority = some s)
    ∧ (∀ s, q.filter_tags = some s → s ≠ "" → likeSub t.tags s = true)
    ∧ (∀ s, q.search_query = some s → s ≠ "" →
        ilikeSub (some t.title) s = true ∨ ilikeSub t.description s = true
          ∨ ilikeSub t.tags s = true)
    ∧ (listTasks db uid q).tasks.length ≤ (listTasks db uid q).total
    ∧ (∀ s, validSortFields.contains s = false → effSortField (some s) = "order_index") := by
  have hmem : t ∈ db.filter (taskMatches uid q) :=
    mem_sortByLe.mp (List.mem_of_mem_drop (List.mem_of_mem_take ht))
  have hmatch := (List.mem_filter.mp hmem).2
  simp only [taskMatches, Bool.and_eq_true] at hmatch
  obtain ⟨⟨⟨⟨⟨hu, hst⟩, hcat⟩, hpri⟩, htag⟩, hsearch⟩ := hmatch
  refine ⟨by simpa using hu, ?_, ?_, ?_, ?_, ?_, ?_, ?_⟩
  · intro s hs hne
    rw [hs] at hst
    simpa [matchStatus, hne] using hst
  · intro s hs hne
    rw [hs] at hcat
    simpa [matchCategory, hne] using hcat
  · intro s hs hne
    rw [hs] at hpri
    simpa [matchPriority, hne] using hpri
  · intro s hs hne
    rw [hs] at htag
    simpa [matchTags, hne] using htag
  · intro s hs hne
    rw [hs] at hsearch
    simpa [matchSearch, hne, or_assoc] using hsearch
  · simp only [listTasks, List.length_take, List.length_drop, length_sortByLe]
    omega
  · intro s hcontains
    have hnm : s ∉ validSortFields := by
      intro hmem2
      have hc : validSortFields.contains s = true := List.elem_iff.mpr hmem2
      rw [hcontains] at hc
      cases hc
    simp [effSortField, hnm]

/-- C2 witness: a task matching a fully-populated filter set is returned, owned
by the caller, and carries the filtered status. -/
theorem c2_list_filters_witness :
    taskFull ∈ (listTasks [taskFull] "u" qWitness).tasks
    ∧ taskFull.user_id = "u" ∧ taskFull.status = "incomplete" := by
  have h := c2_list_filters [taskFull] "u" qWitness taskFull (by decide)
  exact ⟨by decide, h.1, h.2.1 "incomplete" rfl (by decide)⟩

/-- C1: a reorder whose list is a permutation of all the owner's task ids
assigns each listed task the order_index equal to its 0-based position in the
list (the indices 0..N-1 in the list's sequence), leaving other owners' rows
unchanged; a list containing any id that does not refer to an owned task is
rejected whole, with no write at all. -/
theorem c1_reorder_positions (db : List Task) (uid : String) (order : List String)
    (now : Nat) (hwf : wfIds db) :
    (order.Perm (ownedIds db uid) →
      (∀ t ∈ (reorderTasks db uid order now).2, t.user_id = uid →
        t.order_index = Int.ofNat (List.indexOf t.task_id order))
      ∧ (∀ i (h : i < order.length), ∃ t ∈ (reorderTasks db uid order now).2,
          t.task_id = order[i] ∧ t.user_id = uid ∧ t.order_index = Int.ofNat i)
      ∧ (∀ t ∈ db, t.user_id ≠ uid → t ∈ (reorderTasks db uid order now).2))
    ∧ ((∃ id ∈ order, ∀ t ∈ db, ¬(t.task_id = id ∧ t.user_id = uid)) →
        reorderTasks db uid order now = (.error "INVALID_TASK_ACCESS", db)) := by
  constructor
  · intro hperm
    by_cases hemp : order = []
    · subst hemp
      have h0 : ownedIds db uid = [] := List.Perm.eq_nil hperm.symm
      have hfe : db.filter (fun t => t.user_id == uid) = [] := by
        have := congrArg List.length h0
        simp only [ownedIds, List.length_map, List.length_nil] at this
        exact List.length_eq_zero.mp this
      have h2 : (reorderTasks db uid ([] : List String) now).2 = db := rfl
      refine ⟨?_, ?_, ?_⟩
      · intro t ht hu
        rw [h2] at ht
        exfalso
        have hmem : t ∈ db.filter (fun t => t.user_id == uid) :=
          List.mem_filter.mpr ⟨ht, by simp [hu]⟩
        rw [hfe] at hmem
        cases hmem
      · intro i h
        simp at h
      · intro t ht _
        rw [h2]
        exact ht
    · have hcount : (ownedMatching db uid order).length = order.length :=
        ownedMatching_length_of_perm db uid order hperm
      have hnodupO : order.Nodup := hperm.nodup_iff.mpr (ownedIds_nodup db uid hwf)
      have hempty : order.isEmpty = false := by
        cases order with
        | nil => exact absurd rfl hemp
        | cons a l => rfl
      have hred : (reorderTasks db uid order now).2 = db.map (fun t =>
          if order.contains t.task_id && t.user_id == uid then
            { t with order_index := Int.ofNat (List.indexOf t.task_id order),
                     updated_at := now }
          else t) := by
        simp [reorderTasks, hempty, hcount]
      refine ⟨?_, ?_, ?_⟩
      · intro t' ht' hu'
        rw [hred] at ht'
        obtain ⟨t, ht, rfl⟩ := List.mem_map.mp ht'
        by_cases hcond : (order.contains t.task_id && t.user_id == uid) = true
        · simp only [hcond, if_true]
        · simp only [Bool.not_eq_true] at hcond
          simp only [hcond, Bool.false_eq_true, if_false] at hu' ⊢
          exfalso
          have hin : t.task_id ∈ order := hperm.mem_iff.mpr
            (List.mem_map_of_mem _ (List.mem_filter.mpr ⟨ht, by simp [hu']⟩))
          have hc : order.contains t.task_id = true := List.elem_iff.mpr hin
          have hcontra : (order.contains t.task_id && t.user_id == uid) = true := by
            rw [Bool.and_eq_true]
            exact ⟨hc, by simp [hu']⟩
          rw [hcond] at hcontra
          cases hcontra
      · intro i h
        have hidmem : order[i] ∈ order := List.getElem_mem h
        have hidown : order[i] ∈ ownedIds db uid := hperm.mem_iff.mp hidmem
        obtain ⟨t, htf, htid⟩ := List.mem_map.mp hidown
        have htdb : t ∈ db := (List.mem_filter.mp htf).1
        have hu : (t.user_id == uid) = true := (List.mem_filter.mp htf).2
        have hc : order.contains t.task_id = true := List.elem_iff.mpr (htid ▸ hidmem)
        have hcond : (order.contains t.task_id && t.user_id == uid) = true := by
          rw [Bool.and_eq_true]
          exact ⟨hc, hu⟩
        refine ⟨{ t with order_index := Int.ofNat (List.indexOf t.task_id order),
                         updated_at := now }, ?_, htid, by simpa using hu, ?_⟩
        · rw [hred]
          refine List.mem_map.mpr ⟨t, htdb, ?_⟩
          rw [hcond]
          simp
        · have hix : List.indexOf order[i] order = i := List.indexOf_getElem hnodupO i h
          rw [htid, hix]
      · intro t ht hne
        rw [hred]
        refine List.mem_map.mpr ⟨t, ht, ?_⟩
        simp [hne]
  · rintro ⟨id0, hid, hfor⟩
    have hemp : order ≠ [] := List.ne_nil_of_mem hid
    have hempty : order.isEmpty = false := by
      cases order with
      | nil => exact absurd rfl hemp
      | cons a l => rfl
    have hlt := ownedMatching_length_lt db uid order hwf id0 hid hfor
    have hbne : ((ownedMatching db uid order).length != order.length) = true :=
      bne_iff_ne.mpr (Nat.ne_of_lt hlt)
    simp [reorderTasks, hempty, hbne]

/-- C1 witness: reordering the three owned tasks to [C, A, B] gives C index 0 in
the stored table, and a foreign id rejects the reorder with the table unchanged. -/
theorem c1_reorder_positions_witness :
    (∃ t ∈ (reorderTasks dbMixed "u" ["C", "A", "B"] 5).2,
      t.task_id = "C" ∧ t.user_id = "u" ∧ t.order_index = Int.ofNat 0)
    ∧ reorderTasks dbMixed "u" ["C", "A", "X"] 5 = (.error "INVALID_TASK_ACCESS", dbMixed) := by
  have h := c1_reorder_positions dbMixed "u" ["C", "A", "B"] 5 (by decide)
  have h2 := c1_reorder_positions dbMixed "u" ["C", "A", "X"] 5 (by decide)
  constructor
  · exact (h.1 (by decide)).2.1 0 (by decide)
  · exact h2.2 ⟨"X", by decide, by decide⟩

/-- C3 (amended): a bulk-complete or bulk-delete whose owned-row count differs
from the supplied id count is rejected whole with nothing modified or deleted;
when the ids are nonempty, pairwise distinct and all owned, every referenced
task is completed (respectively deleted) and the returned count equals the
batch size. -/
theorem c3_bulk_all_or_nothing (db : List Task) (uid : String) (ids : List String)
    (now : Nat) (hwf : wfIds db) :
    ((ownedMatching db uid ids).length ≠ ids.length →
      (bulkComplete db uid ids now).2 = db ∧ (bulkDelete db uid ids).2 = db
      ∧ (∀ n, (bulkComplete db uid ids now).1 ≠ .ok n)
      ∧ (∀ n, (bulkDelete db uid ids).1 ≠ .ok n))
    ∧ (ids ≠ [] → ids.Nodup →
       (∀ id ∈ ids, ∃ t ∈ db, t.task_id = id ∧ t.user_id = uid) →
        (bulkComplete db uid ids now).1 = .ok ids.length
        ∧ (∀ t ∈ (bulkComplete db uid ids now).2, t.task_id ∈ ids → t.status = "completed")
        ∧ (bulkDelete db uid ids).1 = .ok ids.length
        ∧ (∀ t ∈ (bulkDelete db uid ids).2, t.task_id ∉ ids)
        ∧ (∀ t ∈ db, t.task_id ∉ ids → t ∈ (bulkDelete db uid ids).2)) := by
  constructor
  · intro hne
    by_cases hemp : ids = []
    · subst hemp
      exact ⟨rfl, rfl, by simp [bulkComplete], by simp [bulkDelete]⟩
    · have hempty : ids.isEmpty = false := by
        cases ids with
        | nil => exact absurd rfl hemp
        | cons a l => rfl
      have hbne : ((ownedMatching db uid ids).length != ids.length) = true :=
        bne_iff_ne.mpr hne
      refine ⟨?_, ?_, ?_, ?_⟩ <;> simp [bulkComplete, bulkDelete, hempty, hbne]
  · intro hemp hnd hall
    have hcount : (ownedMatching db uid ids).length = ids.length :=
      ownedMatching_length_eq db uid ids hwf hnd hall
    have hempty : ids.isEmpty = false := by
      cases ids with
      | nil => exact absurd rfl hemp
      | cons a l => rfl
    have hinj := List.inj_on_of_nodup_map hwf
    have hred2 : (bulkComplete db uid ids now).2 = db.map (fun t =>
        if ids.contains t.task_id && t.user_id == uid then
          { t with status := "completed", updated_at := now }
        else t) := by
      simp [bulkComplete, hempty, hcount]
    have hredd : (bulkDelete db uid ids).2 =
        db.filter (fun t => !(ids.contains t.task_id && t.user_id == uid)) := by
      simp [bulkDelete, hempty, hcount]
    have hc1 : (bulkComplete db uid ids now).1 = .ok ids.length := by
      simp [bulkComplete, hempty, hcount]
    have hd1 : (bulkDelete db uid ids).1 = .ok ids.length := by
      simp [bulkDelete, hempty, hcount]
    refine ⟨hc1, ?_, hd1, ?_, ?_⟩
    · intro t' ht' hin
      rw [hred2] at ht'
      obtain ⟨t, ht, rfl⟩ := List.mem_map.mp ht'
      by_cases hcond : (ids.contains t.task_id && t.user_id == uid) = true
      · simp only [hcond, if_true]
      · simp only [Bool.not_eq_true] at hcond
        simp only [hcond, Bool.false_eq_true, if_false] at hin ⊢
        exfalso
        obtain ⟨tw, htw, htwid, htwu⟩ := hall t.task_id hin
        have heq : tw = t := hinj htw ht htwid
        subst heq
        have hcontra : (ids.contains tw.task_id && tw.user_id == uid) = true := by
          rw [Bool.and_eq_true]
          exact ⟨List.elem_iff.mpr hin, by simp [htwu]⟩
        rw [hcond] at hcontra
        cases hcontra
    · intro t' ht' hin
      rw [hredd] at ht'
      have hmf := List.mem_filter.mp ht'
      obtain ⟨tw, htw, htwid, htwu⟩ := hall t'.task_id hin
      have heq : tw = t' := hinj htw hmf.1 htwid
      subst heq
      have hcontra : (ids.contains tw.task_id && tw.user_id == uid) = true := by
        rw [Bool.and_eq_true]
        exact ⟨List.elem_iff.mpr hin, by simp [htwu]⟩
      have hmf2 := hmf.2
      rw [Bool.not_eq_true', hcontra] at hmf2
      cases hmf2
    · intro t ht hnotin
      rw [hredd]
      refine List.mem_filter.mpr ⟨ht, ?_⟩
      simp
      exact Or.inl hnotin

/-- C3 witness: an all-owned duplicate-free batch completes (resp. deletes) every
referenced task and reports the batch size. -/
theorem c3_bulk_all_or_nothing_witness :
    (bulkComplete dbMixed "u" ["A", "B"] 5).1 = .ok 2
    ∧ (∀ t ∈ (bulkComplete dbMixed "u" ["A", "B"] 5).2,
        t.task_id ∈ ["A", "B"] → t.status = "completed")
    ∧ (bulkDelete dbMixed "u" ["A", "B"]).1 = .ok 2
    ∧ (∀ t ∈ (bulkDelete dbMixed "u" ["A", "B"]).2, t.task_id ∉ ["A", "B"]) := by
  have h := (c3_bulk_all_or_nothing dbMixed "u" ["A", "B"] 5 (by decide)).2
    (by decide) (by decide) (by decide)
  exact ⟨h.1, h.2.1, h.2.2.1, h.2.2.2.1⟩

theorem ownerIdxUniq_map (db : List Task) (f : Task → Task)
    (hf : ∀ t ∈ db, (f t).user_id = t.user_id ∧ (f t).order_index = t.order_index)
    (h : ownerIdxUniq db) : ownerIdxUniq (db.map f) := by
  unfold ownerIdxUniq at h ⊢
  rw [List.pairwise_map]
  refine h.imp_of_mem ?_
  intro a b ha hb hab hu
  rw [(hf a ha).2, (hf b hb).2]
  refine hab ?_
  rw [← (hf a ha).1, ← (hf b hb).1]
  exact hu

theorem ownerIdxUniq_filter (db : List Task) (p : Task → Bool)
    (h : ownerIdxUniq db) : ownerIdxUniq (db.filter p) :=
  List.Pairwise.sublist (List.filter_sublist db) h

theorem ownerIdxUniq_append_big (db : List Task) (t : Task)
    (ht : ∀ u ∈ db, u.user_id = t.user_id → u.order_index < t.order_index)
    (h : ownerIdxUniq db) : ownerIdxUniq (db ++ [t]) := by
  unfold ownerIdxUniq at h ⊢
  rw [List.pairwise_append]
  refine ⟨h, by simp, ?_⟩
  intro a ha b hb
  simp only [List.mem_singleton] at hb
  subst hb
  intro hu
  exact Int.ne_of_lt (ht a ha hu)

theorem ownerIdxUniq_reorder (db : List Task) (uid : String) (order : List String)
    (now : Nat) (hwf : wfIds db) (h : ownerIdxUniq db)
    (hperm : order.Perm (ownedIds db uid)) :
    ownerIdxUniq (reorderTasks db uid order now).2 := by
  by_cases hemp : order = []
  · subst hemp
    have h2 : (reorderTasks db uid ([] : List String) now).2 = db := rfl
    rw [h2]
    exact h
  · have hcount : (ownedMatching db uid order).length = order.length :=
      ownedMatching_length_of_perm db uid order hperm
    have hempty : order.isEmpty = false := by
      cases order with
      | nil => exact absurd rfl hemp
      | cons a l => rfl
    set f : Task → Task := fun t =>
      if order.contains t.task_id && t.user_id == uid then
        { t with order_index := Int.ofNat (List.indexOf t.task_id order),
                 updated_at := now }
      else t with hfdef
    have hred : (reorderTasks db uid order now).2 = db.map f := by
      simp [reorderTasks, hempty, hcount, hfdef]
    have huser : ∀ t : Task, (f t).user_id = t.user_id := by
      intro t
      simp only [hfdef]
      split <;> rfl
    have hidx : ∀ t ∈ db, t.user_id = uid →
        (f t).order_index = Int.ofNat (List.indexOf t.task_id order) := by
      intro t ht hu
      have hin : t.task_id ∈ order := hperm.mem_iff.mpr
        (List.mem_map_of_mem _ (List.mem_filter.mpr ⟨ht, by simp [hu]⟩))
      simp [hfdef, hin, hu]
    have hidx2 : ∀ t : Task, t.user_id ≠ uid → (f t).order_index = t.order_index := by
      intro t hu
      simp [hfdef, hu]
    have hmemo : ∀ t ∈ db, t.user_id = uid → t.task_id ∈ order := by
      intro t ht hu
      exact hperm.mem_iff.mpr
        (List.mem_map_of_mem _ (List.mem_filter.mpr ⟨ht, by simp [hu]⟩))
    rw [hred]
    unfold ownerIdxUniq at h ⊢
    rw [List.pairwise_map]
    have hwfp : List.Pairwise (fun a b : String => a ≠ b) (db.map Task.task_id) := hwf
    have hids : List.Pairwise (fun a b : Task => a.task_id ≠ b.task_id) db :=
      List.pairwise_map.mp hwfp
    refine (h.and hids).imp_of_mem ?_
    intro a b ha hb hab hu
    rw [huser a, huser b] at hu
    by_cases hau : a.user_id = uid
    · have hbu : b.user_id = uid := by rw [← hu]; exact hau
      rw [hidx a ha hau, hidx b hb hbu]
      intro heq
      have hix := Int.ofNat.inj heq
      exact hab.2 ((List.indexOf_inj (hmemo a ha hau) (hmemo b hb hbu)).mp hix)
    · have hbu : b.user_id ≠ uid := by rw [← hu]; exact hau
      rw [hidx2 a hau, hidx2 b hbu]
      exact hab.1 hu

/-- C8 (amended): per-owner order_index uniqueness is preserved by every
operation that does not store a caller-chosen order_index: create with the
automatic append index, partial update not touching order_index, delete,
duplicate, toggle, bulk-complete, bulk-delete, share, and any reorder whose
list is a permutation of all the owner's task ids.  (A partial reorder or an
explicit order_index can break it, as the counterexample shows.) -/
theorem c8_order_index_unique (db : List Task) (uid : String) (now : Nat) (op : Op)
    (hwf : wfIds db) (huniq : ownerIdxUniq db) (hsafe : SafeOp db uid op) :
    ownerIdxUniq (step db uid now op) := by
  cases op with
  | createOp b newId =>
    simp only [SafeOp] at hsafe
    simp only [step]
    by_cases hval : (createCheck uid b.title (jsOrNull b.description) (jsOrNull b.priority)
        (jsOrNull b.category) (jsOrNull b.tags) (jsOrStr b.status "incomplete") 0) = true
    · by_cases hcol : ((db.map Task.task_id).contains newId) = true
      · have hcolP : ∃ a ∈ db, a.task_id = newId := by
          obtain ⟨a, ha, hae⟩ := List.mem_map.mp (List.elem_iff.mp hcol)
          exact ⟨a, ha, hae⟩
        have h2 : (createTask db uid b newId now).2 = db := by
          simp [createTask, hsafe, hval, hcolP]
        rw [h2]
        exact huniq
      · simp only [Bool.not_eq_true] at hcol
        have hcolP : ¬ ∃ a ∈ db, a.task_id = newId := by
          rintro ⟨a, ha, hae⟩
          have hc : (db.map Task.task_id).contains newId = true :=
            List.elem_iff.mpr (hae ▸ List.mem_map_of_mem _ ha)
          rw [hcol] at hc
          cases hc
        have h2 : (createTask db uid b newId now).2 = db ++
            [{ task_id := newId, user_id := uid, title := b.title.getD "",
               description := jsOrNull b.description, due_date := b.due_date,
               priority := jsOrNull b.priority, category := jsOrNull b.category,
               tags := jsOrNull b.tags, status := jsOrStr b.status "incomplete",
               order_index := nextOrder db uid,
               share_expires_at := b.share_expires_at, created_at := now,
               updated_at := now }] := by
          simp [createTask, hsafe, hval, hcolP]
        rw [h2]
        apply ownerIdxUniq_append_big db _ ?_ huniq
        intro u hu huid
        exact nextOrder_gt db uid u hu huid
    · simp only [Bool.not_eq_true] at hval
      have h2 : (createTask db uid b newId now).2 = db := by
        simp [createTask, hsafe, hval]
      rw [h2]
      exact huniq
  | updateOp tid b =>
    simp only [SafeOp] at hsafe
    simp only [step]
    cases hfind : findOwned db uid tid with
    | none =>
      have h2 : (updateTask db uid tid b now).2 = db := by simp [updateTask, hfind]
      rw [h2]
      exact huniq
    | some t =>
      by_cases hup : hasUpdateFields b = true
      · have h2 : (updateTask db uid tid b now).2 = db.map (fun u =>
            if u.task_id == tid && u.user_id == uid then applyUpdate b now u else u) := by
          simp [updateTask, hfind, hup]
        rw [h2]
        refine ownerIdxUniq_map db _ (fun u hu => ⟨?_, ?_⟩) huniq
        · split <;> rfl
        · split
          · simp [applyUpdate, hsafe]
          · rfl
      · simp only [Bool.not_eq_true] at hup
        have h2 : (updateTask db uid tid b now).2 = db := by simp [updateTask, hfind, hup]
        rw [h2]
        exact huniq
  | removeOp tid =>
    simp only [step]
    by_cases hex : (db.any (fun t => t.task_id == tid && t.user_id == uid)) = true
    · have h2 : (deleteTask db uid tid).2 =
          db.filter (fun t => !(t.task_id == tid && t.user_id == uid)) := by
        simp [deleteTask, hex]
      rw [h2]
      exact ownerIdxUniq_filter db _ huniq
    · simp only [Bool.not_eq_true] at hex
      have h2 : (deleteTask db uid tid).2 = db := by simp [deleteTask, hex]
      rw [h2]
      exact huniq
  | duplicateOp tid newId =>
    simp only [step]
    cases hfind : findOwned db uid tid with
    | none =>
      have h2 : (duplicateTask db uid tid newId now).2 = db := by
        simp [duplicateTask, hfind]
      rw [h2]
      exact huniq
    | some orig =>
      by_cases hcol : ((db.map Task.task_id).contains newId) = true
      · have hcolP : ∃ a ∈ db, a.task_id = newId := by
          obtain ⟨a, ha, hae⟩ := List.mem_map.mp (List.elem_iff.mp hcol)
          exact ⟨a, ha, hae⟩
        have h2 : (duplicateTask db uid tid newId now).2 = db := by
          simp [duplicateTask, hfind, hcolP]
        rw [h2]
        exact huniq
      · simp only [Bool.not_eq_true] at hcol
        have hcolP : ¬ ∃ a ∈ db, a.task_id = newId := by
          rintro ⟨a, ha, hae⟩
          have hc : (db.map Task.task_id).contains newId = true :=
            List.elem_iff.mpr (hae ▸ List.mem_map_of_mem _ ha)
          rw [hcol] at hc
          cases hc
        have h2 : (duplicateTask db uid tid newId now).2 = db ++
            [{ task_id := newId, user_id := uid, title := "Copy of " ++ orig.title,
               description := orig.description, due_date := orig.due_date,
               priority := orig.priority, category := orig.category,
               tags := orig.tags, status := "incomplete",
               order_index := nextOrder db uid, share_expires_at := none,
               created_at := now, updated_at := now }] := by
          simp [duplicateTask, hfind, hcolP]
        rw [h2]
        apply ownerIdxUniq_append_big db _ ?_ huniq
        intro u hu huid
        exact nextOrder_gt db uid u hu huid
  | reorderOp order =>
    simp only [SafeOp] at hsafe
    simp only [step]
    exact ownerIdxUniq_reorder db uid order now hwf huniq hsafe
  | toggleOp tid st =>
    simp only [step]
    cases st with
    | none =>
      have h2 : (toggleStatus db uid tid none now).2 = db := by simp [toggleStatus]
      rw [h2]
      exact huniq
    | some s =>
      by_cases hvs : (s == "incomplete" || s == "completed") = true
      · cases hfind : findOwned db uid tid with
        | none =>
          have h2 : (toggleStatus db uid tid (some s) now).2 = db := by
            simp [toggleStatus, hvs, hfind]
          rw [h2]
          exact huniq
        | some t =>
          have h2 : (toggleStatus db uid tid (some s) now).2 = db.map (fun u =>
              if u.task_id == tid && u.user_id == uid then
                { u with status := s, updated_at := now }
              else u) := by
            simp [toggleStatus, hvs, hfind]
          rw [h2]
          refine ownerIdxUniq_map db _ (fun u hu => ⟨?_, ?_⟩) huniq
          · split <;> rfl
          · split <;> rfl
      · simp only [Bool.not_eq_true] at hvs
        have h2 : (toggleStatus db uid tid (some s) now).2 = db := by
          simp [toggleStatus, hvs]
        rw [h2]
        exact huniq
  | bulkCompleteOp ids =>
    simp only [step]
    by_cases hemp : ids.isEmpty = true
    · have h2 : (bulkComplete db uid ids now).2 = db := by simp [bulkComplete, hemp]
      rw [h2]
      exact huniq
    · simp only [Bool.not_eq_true] at hemp
      by_cases hbne : ((ownedMatching db uid ids).length != ids.length) = true
      · have h2 : (bulkComplete db uid ids now).2 = db := by
          simp [bulkComplete, hemp, hbne]
        rw [h2]
        exact huniq
      · simp only [Bool.not_eq_true] at hbne
        have h2 : (bulkComplete db uid ids now).2 = db.map (fun t =>
            if ids.contains t.task_id && t.user_id == uid then
              { t with status := "completed", updated_at := now }
            else t) := by
          simp [bulkComplete, hemp, hbne]
        rw [h2]
        refine ownerIdxUniq_map db _ (fun u hu => ⟨?_, ?_⟩) huniq
        · split <;> rfl
        · split <;> rfl
  | bulkDeleteOp ids =>
    simp only [step]
    by_cases hemp : ids.isEmpty = true
    · have h2 : (bulkDelete db uid ids).2 = db := by simp [bulkDelete, hemp]
      rw [h2]
      exact huniq
    · simp only [Bool.not_eq_true] at hemp
      by_cases hbne : ((ownedMatching db uid ids).length != ids.length) = true
      · have h2 : (bulkDelete db uid ids).2 = db := by simp [bulkDelete, hemp, hbne]
        rw [h2]
        exact huniq
      · simp only [Bool.not_eq_true] at hbne
        have h2 : (bulkDelete db uid ids).2 =
            db.filter (fun t => !(ids.contains t.task_id && t.user_id == uid)) := by
          simp [bulkDelete, hemp, hbne]
        rw [h2]
        exact ownerIdxUniq_filter db _ huniq
  | shareOp tid =>
    simp only [step]
    cases hfind : findOwned db uid tid with
    | none =>
      have h2 : (shareTask db uid tid now).2 = db := by simp [shareTask, hfind]
      rw [h2]
      exact huniq
    | some t =>
      have hmap : ownerIdxUniq (db.map (fun u =>
          if u.task_id == tid && u.user_id == uid then
            { u with share_expires_at := some (now + thirtyDaysMs), updated_at := now }
          else u)) := by
        refine ownerIdxUniq_map db _ (fun u hu => ⟨?_, ?_⟩) huniq
        · split <;> rfl
        · split <;> rfl
      cases he : t.share_expires_at with
      | none =>
        have h2 : (shareTask db uid tid now).2 = db.map (fun u =>
            if u.task_id == tid && u.user_id == uid then
              { u with share_expires_at := some (now + thirtyDaysMs), updated_at := now }
            else u) := by
          simp [shareTask, hfind, he]
        rw [h2]
        exact hmap
      | some e =>
        cases hb : Nat.blt now e with
        | true =>
          have h2 : (shareTask db uid tid now).2 = db := by
            simp [shareTask, hfind, he, hb]
          rw [h2]
          exact huniq
        | false =>
          have h2 : (shareTask db uid tid now).2 = db.map (fun u =>
              if u.task_id == tid && u.user_id == uid then
                { u with share_expires_at := some (now + thirtyDaysMs), updated_at := now }
              else u) := by
            simp [shareTask, hfind, he, hb]
          rw [h2]
          exact hmap

/-- C8 witness: a safe operation (toggle) on the two-task fixture keeps the
owner's order indices pairwise distinct. -/
theorem c8_order_index_unique_witness :
    ownerIdxUniq (step dbPair "u" 9 (.toggleOp "A" (some "completed"))) := by
  exact c8_order_index_unique dbPair "u" 9 (.toggleOp "A" (some "completed"))
    (by decide) (by decide) (by simp [SafeOp])

end TaskApp
